import Mathlib

/-!
Shallow embedding of the item CRUD storage core of `demo-app` (`main.go`).

The program stores `Item` records as JSON blobs in BadgerDB under keys
`"item:" ++ decimal id`, allocates ids from a Badger sequence with
bandwidth 100 (key `"seq:items"`), and keeps a process-wide in-memory
display slot (`displayData`).

Modelling choices:
  - The BadgerDB key space is a list of (key, blob) pairs; Badger keeps
    keys in byte-lexicographic order (`charListLt` below, which over the
    ASCII keys the program generates coincides with byte order), so
    insertion keeps the list sorted and iteration is list order.
  - Serialized values are a `Blob`: `Blob.good it` stands for the bytes
    `json.Marshal` produces for `it` (which `json.Unmarshal` decodes back
    to the same record), `Blob.bad s` for any stored bytes on which
    `json.Unmarshal` into an `Item` fails.
  - `time.Now()` is an explicit `now : Nat` argument to `createItem`.
  - The Badger sequence counter is a `Nat`; the program's `uint64` cannot
    wrap within any process lifetime (it would take 2^64 allocations), so
    the wraparound is not modelled, and `int64(id)` is `Int.ofNat`,
    exact for every id below 2^63.
-/

namespace DemoApp

/-- The `Item` struct of `main.go`: id (int64), name, description,
created_at (a timestamp, modelled as `Nat`). -/
structure Item where
  id : Int
  name : String
  description : String
  createdAt : Nat
deriving DecidableEq, Repr

/-- A value blob stored in the database: either the serialization of an
`Item` (`json.Marshal` output) or bytes that do not deserialize into an
`Item`. -/
inductive Blob where
  | good : Item → Blob
  | bad : String → Blob
deriving DecidableEq, Repr

/-- `json.Unmarshal` of a stored blob into an `Item`: succeeds exactly on
marshalled items, returning the marshalled record. -/
def unmarshalItem : Blob → Option Item
  | Blob.good it => some it
  | Blob.bad _ => none

/-- `json.Marshal` of an `Item`. -/
def marshalItem (it : Item) : Blob := Blob.good it

/-- The item key of `main.go`: `fmt.Sprintf("%s%d", itemKeyPrefix, id)`
with the namespace tag `"item:"` and the unpadded decimal id. -/
def itemKey (id : Int) : String := "item:" ++ toString id

/-- Does a key carry the item namespace tag `"item:"`? Models
`it.ValidForPrefix(prefix)` of the Badger iterator in `listItems`. -/
def hasItemTag (k : String) : Bool := List.isPrefixOf "item:".data k.data

/-- Lexicographic strict order on char lists: Badger's `bytes.Compare`
over the keys (for the ASCII keys this program generates, and indeed for
any valid UTF-8, codepoint order coincides with byte order). -/
def charListLt : List Char → List Char → Bool
  | _, [] => false
  | [], _ :: _ => true
  | a :: as, b :: bs => if a < b then true else if b < a then false else charListLt as bs

/-- Byte-wise lexicographic order on key text. -/
def keyLt (a b : String) : Bool := charListLt a.data b.data

/-- The BadgerDB key space: (key, blob) pairs, kept in ascending key
order the way Badger iterates them. -/
abbrev Store := List (String × Blob)

/-- `txn.Get(key)`: first (only) binding of the key, if present. -/
def storeGet : Store → String → Option Blob
  | [], _ => none
  | (k', v') :: rest, k => if k = k' then some v' else storeGet rest k

/-- `txn.Set(key, value)`: order-preserving insert-or-replace. -/
def storeSet : Store → String → Blob → Store
  | [], k, v => [(k, v)]
  | (k', v') :: rest, k, v =>
    if keyLt k k' then (k, v) :: (k', v') :: rest
    else if k = k' then (k, v) :: rest
    else (k', v') :: storeSet rest k v

/-- `txn.Delete(key)`: remove the binding of the key. -/
def storeDel : Store → String → Store
  | [], _ => []
  | (k', v') :: rest, k => if k' = k then storeDel rest k else (k', v') :: storeDel rest k

/-- State of a Badger `Sequence` (key `"seq:items"`): the in-memory
reservation window `[next, leased)` plus the persisted counter that the
store holds under the sequence key (`none` before the first lease). -/
structure SeqState where
  next : Nat
  leased : Nat
  persisted : Option Nat
  bandwidth : Nat
deriving DecidableEq, Repr

/-- Badger's `Sequence.updateLease`: read the persisted counter (absent
means 0), restart `next` there, lease `bandwidth` more ids and persist
the new boundary. -/
def updateLease (s : SeqState) : SeqState :=
  let nx := s.persisted.getD 0
  { next := nx, leased := nx + s.bandwidth, persisted := some (nx + s.bandwidth),
    bandwidth := s.bandwidth }

/-- Badger's `Sequence.Next`: renew the lease when the window is
exhausted, then hand out `next` and advance it. -/
def seqNext (s : SeqState) : Nat × SeqState :=
  let s1 := if s.leased ≤ s.next then updateLease s else s
  (s1.next, { s1 with next := s1.next + 1 })

/-- `db.GetSequence(key, bandwidth)`: a fresh in-memory window leased at
once from the persisted counter. -/
def getSequence (persisted : Option Nat) (bandwidth : Nat) : SeqState :=
  updateLease { next := 0, leased := 0, persisted := persisted, bandwidth := bandwidth }

/-- Whole-process state: the Badger store, the item id sequence, and the
in-memory `displayData` slot (`none` until the first successful set). -/
structure AppState where
  store : Store
  seq : SeqState
  display : Option String
deriving DecidableEq, Repr

/-- Process start with an empty (in-memory) database: no item keys, a
fresh `seq:items` sequence with bandwidth 100, unset display data. -/
def initState : AppState :=
  { store := [], seq := getSequence none 100, display := none }

/-- The decoded request body of `createItem`/`updateItem`:
`struct { Name string; Description string }`. -/
structure CreateInput where
  name : String
  description : String
deriving DecidableEq, Repr

/-- A request body as seen by `json.NewDecoder(r.Body).Decode`: either it
decodes to an `α` or decoding fails. -/
inductive Body (α : Type) where
  | malformed
  | ok (a : α)
deriving DecidableEq, Repr

/-- Outcome of `createItem` (HTTP 400 / 400 / 500 / 201). -/
inductive CreateRes where
  | invalidJson
  | nameRequired
  | created (it : Item)
deriving DecidableEq, Repr

/-- Outcome of `getItem` (HTTP 404 / 500 / 200). -/
inductive GetRes where
  | notFound
  | dbError
  | found (it : Item)
deriving DecidableEq, Repr

/-- Outcome of `updateItem` (HTTP 400 / 400 / 404 / 500 / 200). -/
inductive UpdateRes where
  | invalidJson
  | nameRequired
  | notFound
  | dbError
  | updated (it : Item)
deriving DecidableEq, Repr

/-- Outcome of `deleteItem` (HTTP 404 / 204). -/
inductive DeleteRes where
  | notFound
  | noContent
deriving DecidableEq, Repr

/-- Outcome of `setDisplay` (HTTP 400 / 201 echoing the stored bytes). -/
inductive SetDisplayRes where
  | invalidJson
  | created (raw : String)
deriving DecidableEq, Repr

/-- `createItem` of `main.go`: decode the body, reject an empty name,
draw the next id from `itemSeq`, build the record with the current time,
marshal it and store it under its key; respond 201 with the record. -/
def createItem (body : Body CreateInput) (now : Nat) (st : AppState) :
    CreateRes × AppState :=
  match body with
  | Body.malformed => (CreateRes.invalidJson, st)
  | Body.ok input =>
    if input.name = "" then (CreateRes.nameRequired, st)
    else
      let r := seqNext st.seq
      let item : Item :=
        { id := Int.ofNat r.1, name := input.name, description := input.description,
          createdAt := now }
      let key := itemKey item.id
      (CreateRes.created item,
        { st with seq := r.2, store := storeSet st.store key (marshalItem item) })

/-- `getItem` of `main.go`: read the key in a read-only transaction;
missing key is 404, a blob that fails to unmarshal is a 500. -/
def getItem (id : Int) (st : AppState) : GetRes :=
  match storeGet st.store (itemKey id) with
  | none => GetRes.notFound
  | some b =>
    match unmarshalItem b with
    | none => GetRes.dbError
    | some it => GetRes.found it

/-- `updateItem` of `main.go`: decode the body, reject an empty name,
then in one read-write transaction fetch the record (404 if absent, 500
if it fails to unmarshal), overwrite name and description keeping id and
created_at, and write it back to the same key. -/
def updateItem (id : Int) (body : Body CreateInput) (st : AppState) :
    UpdateRes × AppState :=
  match body with
  | Body.malformed => (UpdateRes.invalidJson, st)
  | Body.ok input =>
    if input.name = "" then (UpdateRes.nameRequired, st)
    else
      match storeGet st.store (itemKey id) with
      | none => (UpdateRes.notFound, st)
      | some b =>
        match unmarshalItem b with
        | none => (UpdateRes.dbError, st)
        | some old =>
          let item := { old with name := input.name, description := input.description }
          (UpdateRes.updated item,
            { st with store := storeSet st.store (itemKey id) (marshalItem item) })

/-- `deleteItem` of `main.go`: check existence in a read-only
transaction (404 if absent), then delete the key in a write transaction
and respond 204. -/
def deleteItem (id : Int) (st : AppState) : DeleteRes × AppState :=
  match storeGet st.store (itemKey id) with
  | none => (DeleteRes.notFound, st)
  | some _ => (DeleteRes.noContent, { st with store := storeDel st.store (itemKey id) })

/-- `listItems` of `main.go`: iterate the keys carrying the item
namespace tag in store (key) order, unmarshal each value, skip values
that fail to unmarshal, and return the collected items. -/
def listItems (st : AppState) : List Item :=
  (st.store.filter (fun p => hasItemTag p.1)).filterMap (fun p => unmarshalItem p.2)

/-- `getDisplay` of `main.go`: the raw stored bytes, or the literal
`"\x7b\x7d"` (empty JSON object) when nothing has been set. -/
def getDisplay (st : AppState) : String :=
  match st.display with
  | none => "\x7b\x7d"
  | some raw => raw

/-- `setDisplay` of `main.go`: decode the body into a `json.RawMessage`
(reject invalid JSON), replace the slot wholesale, echo the stored
bytes. -/
def setDisplay (body : Body String) (st : AppState) : SetDisplayRes × AppState :=
  match body with
  | Body.malformed => (SetDisplayRes.invalidJson, st)
  | Body.ok raw => (SetDisplayRes.created raw, { st with display := some raw })

/-- One state-changing API call in a request trace. -/
inductive Op where
  | create (body : Body CreateInput) (now : Nat)
  | update (id : Int) (body : Body CreateInput)
  | del (id : Int)

/-- Apply one call; also report the id returned when the call was a
successful create. -/
def applyOp (op : Op) (st : AppState) : AppState × Option Int :=
  match op with
  | Op.create body now =>
    let r := createItem body now st
    (r.2, match r.1 with
          | CreateRes.created it => some it.id
          | _ => none)
  | Op.update id body => ((updateItem id body st).2, none)
  | Op.del id => ((deleteItem id st).2, none)

/-- Run a trace of calls, collecting the ids returned by the successful
creates in order. -/
def runOps : List Op → AppState → List Int × AppState
  | [], st => ([], st)
  | op :: rest, st =>
    let r := applyOp op st
    let rr := runOps rest r.1
    (r.2.toList ++ rr.1, rr.2)

/-- Run a trace of display submissions. -/
def runDisplay : List (Body String) → AppState → AppState
  | [], st => st
  | b :: rest, st => runDisplay rest (setDisplay b st).2

/-- The payload of the last submission in the trace that decoded
successfully, if any. -/
def lastValid : List (Body String) → Option String
  | [] => none
  | b :: rest =>
    match lastValid rest with
    | some raw => some raw
    | none =>
      match b with
      | Body.ok raw => some raw
      | Body.malformed => none

/-- The store list is in ascending key order — how Badger hands keys to
the iterator. -/
abbrev storeSorted (l : Store) : Prop :=
  List.Pairwise (fun a b => keyLt a.1 b.1 = true) l

/-- Every record that deserializes is stored under the key built from
its own id: true of every store this program writes. -/
def storeWF (l : Store) : Bool :=
  l.all fun p =>
    match unmarshalItem p.2 with
    | some it => p.1 == itemKey it.id
    | none => true

/-- Invariant of a live Badger sequence: the persisted counter is the
lease boundary, the in-memory cursor has not passed it, and the
bandwidth is positive. -/
abbrev SeqInv (s : SeqState) : Prop :=
  s.persisted = some s.leased ∧ s.next ≤ s.leased ∧ 0 < s.bandwidth

theorem storeGet_set_self (l : Store) (k : String) (v : Blob) :
    storeGet (storeSet l k v) k = some v := by
  induction l with
  | nil => simp [storeSet, storeGet]
  | cons p rest ih =>
    obtain ⟨k', v'⟩ := p
    simp only [storeSet]
    split
    · simp [storeGet]
    · split
      · simp [storeGet]
      · next h1 h2 => simp [storeGet, h2, ih]

theorem storeGet_del_self (l : Store) (k : String) :
    storeGet (storeDel l k) k = none := by
  induction l with
  | nil => rfl
  | cons p rest ih =>
    obtain ⟨k', v'⟩ := p
    by_cases h : k' = k
    · simpa [storeDel, h] using ih
    · have h2 : ¬k = k' := fun e => h e.symm
      simp [storeDel, storeGet, h, h2, ih]

theorem seqNext_of_inv (s : SeqState) (h : SeqInv s) :
    (seqNext s).1 = s.next ∧ (seqNext s).2.next = s.next + 1 ∧
      SeqInv (seqNext s).2 := by
  obtain ⟨hp, hle, hbw⟩ := h
  by_cases hr : s.leased ≤ s.next
  · have heq : s.next = s.leased := le_antisymm hle hr
    simp [seqNext, if_pos hr, updateLease, hp, SeqInv]
    omega
  · simp [seqNext, if_neg hr, hp, SeqInv]
    omega

theorem updateItem_seq (id : Int) (body : Body CreateInput) (st : AppState) :
    (updateItem id body st).2.seq = st.seq := by
  cases body with
  | malformed => rfl
  | ok input =>
    by_cases h : input.name = ""
    · simp [updateItem, h]
    · cases hg : storeGet st.store (itemKey id) with
      | none => simp [updateItem, h, hg]
      | some b =>
        cases b <;> simp [updateItem, h, hg, unmarshalItem]

theorem deleteItem_seq (id : Int) (st : AppState) :
    (deleteItem id st).2.seq = st.seq := by
  cases hg : storeGet st.store (itemKey id) <;> simp [deleteItem, hg]

/-- A state holding exactly one item, created from scratch: id 0, name
`"A"`, empty description, created at time 11. -/
def stOne : AppState := (createItem (Body.ok ⟨"A", ""⟩) 11 initState).2

/-- C1: for every valid (name, description) pair with name non-empty, a
successful create followed by a read of the returned id yields a record
equal in all four fields (id, name, description, created_at) to the
record the create returned. -/
theorem create_read_roundtrip (st : AppState) (name desc : String) (now : Nat)
    (h : name ≠ "") :
    ∀ it st', createItem (Body.ok ⟨name, desc⟩) now st = (CreateRes.created it, st') →
      getItem it.id st' = GetRes.found it := by
  intro it st' hc
  simp only [createItem, if_neg h, Prod.mk.injEq] at hc
  obtain ⟨h1, h2⟩ := hc
  injection h1 with h1
  subst h1
  subst h2
  simp [getItem, storeGet_set_self, marshalItem, unmarshalItem]

theorem create_read_roundtrip_witness :
    getItem (0 : Int) stOne =
      GetRes.found { id := 0, name := "A", description := "", createdAt := 11 } :=
  create_read_roundtrip initState "A" "" 11 (by decide)
    { id := 0, name := "A", description := "", createdAt := 11 } stOne rfl

/-- C2: for every stored item and non-empty new name, a successful update
keeps the record's id and created_at at their pre-update values and
changes only name and description, writing the result back to the same
key. -/
theorem update_preserves_id_createdAt (st : AppState) (id : Int) (old : Item)
    (name desc : String)
    (hold : storeGet st.store (itemKey id) = some (Blob.good old)) (h : name ≠ "") :
    ∀ it st', updateItem id (Body.ok ⟨name, desc⟩) st = (UpdateRes.updated it, st') →
      it.id = old.id ∧ it.createdAt = old.createdAt ∧ it.name = name ∧
        it.description = desc ∧
        storeGet st'.store (itemKey id) = some (Blob.good it) := by
  intro it st' hu
  simp only [updateItem, if_neg h, hold, unmarshalItem, Prod.mk.injEq] at hu
  obtain ⟨h1, h2⟩ := hu
  injection h1 with h1
  subst h1
  subst h2
  exact ⟨rfl, rfl, rfl, rfl, storeGet_set_self ..⟩

theorem update_preserves_id_createdAt_witness :
    ((⟨0, "N", "D", 11⟩ : Item).id = (⟨0, "A", "", 11⟩ : Item).id ∧
      (⟨0, "N", "D", 11⟩ : Item).createdAt = (⟨0, "A", "", 11⟩ : Item).createdAt ∧
      (⟨0, "N", "D", 11⟩ : Item).name = "N" ∧
      (⟨0, "N", "D", 11⟩ : Item).description = "D" ∧
      storeGet (updateItem 0 (Body.ok ⟨"N", "D"⟩) stOne).2.store (itemKey 0) =
        some (Blob.good ⟨0, "N", "D", 11⟩)) :=
  update_preserves_id_createdAt stOne 0 ⟨0, "A", "", 11⟩ "N" "D" rfl (by decide)
    ⟨0, "N", "D", 11⟩ (updateItem 0 (Body.ok ⟨"N", "D"⟩) stOne).2 rfl

/-- C6: create with an empty name and update with an empty name both fail
with the validation error (`name is required`), and neither writes any
record: the state is returned unchanged. -/
theorem empty_name_rejected (st : AppState) (now : Nat) (id : Int) (desc : String) :
    createItem (Body.ok ⟨"", desc⟩) now st = (CreateRes.nameRequired, st) ∧
      updateItem id (Body.ok ⟨"", desc⟩) st = (UpdateRes.nameRequired, st) :=
  ⟨rfl, rfl⟩

/-- C7: after a successful delete of an id, a read of that id reports not
found, and a second delete of the same id also reports not found,
leaving the state unchanged. -/
theorem delete_then_read_notFound (st : AppState) (id : Int) :
    ∀ st', deleteItem id st = (DeleteRes.noContent, st') →
      getItem id st' = GetRes.notFound ∧
        deleteItem id st' = (DeleteRes.notFound, st') := by
  intro st' hd
  cases hg : storeGet st.store (itemKey id) with
  | none => simp [deleteItem, hg] at hd
  | some b =>
    simp only [deleteItem, hg, Prod.mk.injEq] at hd
    obtain ⟨-, h2⟩ := hd
    subst h2
    have hnone := storeGet_del_self st.store (itemKey id)
    exact ⟨by simp [getItem, hnone], by simp [deleteItem, hnone]⟩

theorem delete_then_read_notFound_witness :
    getItem 0 (deleteItem 0 stOne).2 = GetRes.notFound ∧
      deleteItem 0 (deleteItem 0 stOne).2 = (DeleteRes.notFound, (deleteItem 0 stOne).2) :=
  delete_then_read_notFound stOne 0 (deleteItem 0 stOne).2 rfl

/-- C10: a create rejected before storage (malformed body or empty name)
consumes no identifier and changes nothing: the state comes back exactly
as it was, so any later create behaves as if the rejected call had never
happened. -/
theorem rejected_create_consumes_no_id (st : AppState) (now now2 : Nat)
    (desc : String) (body2 : Body CreateInput) :
    createItem Body.malformed now st = (CreateRes.invalidJson, st) ∧
      createItem (Body.ok ⟨"", desc⟩) now st = (CreateRes.nameRequired, st) ∧
      createItem body2 now2 (createItem Body.malformed now st).2 =
        createItem body2 now2 st ∧
      createItem body2 now2 (createItem (Body.ok ⟨"", desc⟩) now st).2 =
        createItem body2 now2 st :=
  ⟨rfl, rfl, rfl, rfl⟩

/-- C4 counterexample: starting from an empty store and a fresh sequence,
the first successful create returns id 0 — the Badger sequence hands out
0 first — not id 1 as the scenario claims (the repository's own devlog
records `{"id":0,...}` for the first create). -/
theorem first_create_returns_id_zero :
    (createItem (Body.ok ⟨"A", ""⟩) 11 initState).1 =
      CreateRes.created { id := 0, name := "A", description := "", createdAt := 11 } ∧
      ¬(createItem (Body.ok ⟨"A", ""⟩) 11 initState).1 =
        CreateRes.created { id := 1, name := "A", description := "", createdAt := 11 } :=
  ⟨rfl, by decide⟩

/-- C4 amended: from an empty store and fresh sequence, create `"A"`
returns id 0, a second create `"B"` returns id 1, and after deleting id
0, the listing holds exactly one item: id 1, name `"B"`, empty
description, and the created_at stamp of the second create. -/
theorem create_delete_list_scenario (t1 t2 : Nat) :
    (createItem (Body.ok ⟨"A", ""⟩) t1 initState).1 =
      CreateRes.created { id := 0, name := "A", description := "", createdAt := t1 } ∧
      (createItem (Body.ok ⟨"B", ""⟩) t2
          (createItem (Body.ok ⟨"A", ""⟩) t1 initState).2).1 =
        CreateRes.created { id := 1, name := "B", description := "", createdAt := t2 } ∧
      (deleteItem 0 (createItem (Body.ok ⟨"B", ""⟩) t2
          (createItem (Body.ok ⟨"A", ""⟩) t1 initState).2).2).1 = DeleteRes.noContent ∧
      listItems (deleteItem 0 (createItem (Body.ok ⟨"B", ""⟩) t2
          (createItem (Body.ok ⟨"A", ""⟩) t1 initState).2).2).2 =
        [{ id := 1, name := "B", description := "", createdAt := t2 }] := by
  refine ⟨rfl, rfl, ?_, ?_⟩ <;>
    simp +decide [deleteItem, createItem, initState, storeSet, storeGet, storeDel,
      itemKey, keyLt, charListLt, getSequence, updateLease, seqNext, marshalItem,
      listItems, hasItemTag, unmarshalItem]

theorem runDisplay_display (ops : List (Body String)) (st : AppState) :
    (runDisplay ops st).display =
      match lastValid ops with
      | some raw => some raw
      | none => st.display := by
  induction ops generalizing st with
  | nil => rfl
  | cons b rest ih =>
    cases b with
    | malformed =>
      rw [runDisplay, setDisplay, ih]
      cases hl : lastValid rest <;> simp [lastValid, hl]
    | ok raw =>
      rw [runDisplay, setDisplay, ih]
      cases hl : lastValid rest <;> simp [lastValid, hl]

/-- C9: over any trace of display submissions from process start,
`getDisplay` returns byte-for-byte the payload stored by the most recent
successful `setDisplay`, and the literal empty object if none has
succeeded; in particular a get immediately after a successful set echoes
exactly the bytes that were set. -/
theorem display_last_write_wins (ops : List (Body String)) (raw : String)
    (st : AppState) :
    (getDisplay (runDisplay ops initState) =
      match lastValid ops with
      | some r => r
      | none => "\x7b\x7d") ∧
      getDisplay (setDisplay (Body.ok raw) st).2 = raw := by
  constructor
  · have h := runDisplay_display ops initState
    rw [getDisplay, h]
    cases hl : lastValid ops <;> simp [hl, initState]
  · rfl

/-- A store holding two well-formed records around one malformed blob. -/
def stCorrupt : AppState :=
  { store := [(itemKey 0, marshalItem ⟨0, "A", "", 5⟩), (itemKey 1, Blob.bad "junk"),
      (itemKey 2, marshalItem ⟨2, "C", "", 7⟩)],
    seq := getSequence none 100, display := none }

/-- C8: a stored record whose bytes fail to deserialize is skipped by the
listing — the result is exactly the listing of the store without it, so
every record that deserializes is still returned — while the read and
update operations on such a record propagate the failure as a storage
error instead of absorbing it. -/
theorem list_skips_malformed (st : AppState) (l1 l2 : Store) (k m : String)
    (hs : st.store = l1 ++ (k, Blob.bad m) :: l2) :
    listItems st = listItems { st with store := l1 ++ l2 } ∧
      (∀ id : Int, storeGet st.store (itemKey id) = some (Blob.bad m) →
        getItem id st = GetRes.dbError ∧
          ∀ nm d, ¬nm = "" →
            (updateItem id (Body.ok ⟨nm, d⟩) st).1 = UpdateRes.dbError) := by
  constructor
  · simp only [listItems, hs]
    by_cases ht : hasItemTag k = true <;>
      simp [List.filter_append, List.filter_cons, List.filterMap_append, ht,
        unmarshalItem]
  · intro id hid
    constructor
    · simp [getItem, hid, unmarshalItem]
    · intro nm d hnm
      simp [updateItem, hnm, hid, unmarshalItem]

theorem list_skips_malformed_witness :
    listItems stCorrupt =
      listItems { stCorrupt with
        store := [(itemKey 0, marshalItem ⟨0, "A", "", 5⟩)] ++
          [(itemKey 2, marshalItem ⟨2, "C", "", 7⟩)] } :=
  (list_skips_malformed stCorrupt [(itemKey 0, marshalItem ⟨0, "A", "", 5⟩)]
    [(itemKey 2, marshalItem ⟨2, "C", "", 7⟩)] (itemKey 1) "junk" rfl).1

/-- Item with id 2 for the ordering demonstration. -/
def item2 : Item := ⟨2, "two", "", 5⟩

/-- Item with id 10 for the ordering demonstration. -/
def item10 : Item := ⟨10, "ten", "", 6⟩

/-- A store holding the items with ids 2 and 10, inserted in creation
order. -/
def stKeyDemo : AppState :=
  { store := storeSet (storeSet [] (itemKey 2) (marshalItem item2)) (itemKey 10)
      (marshalItem item10),
    seq := getSequence none 100, display := none }

/-- C5: the listing returns items in the byte-wise lexicographic order of
their key text (`"item:" ++ unpadded decimal id`), which is not numeric
order over the identifiers: concretely, the item with id 10 is listed
before the item with id 2. -/
theorem listItems_key_order :
    (∀ st : AppState, storeSorted st.store → storeWF st.store = true →
      List.Pairwise (fun a b : Item => keyLt (itemKey a.id) (itemKey b.id) = true)
        (listItems st)) ∧
      listItems stKeyDemo = [item10, item2] ∧
      keyLt (itemKey item10.id) (itemKey item2.id) = true ∧
      item10.id = 10 ∧ item2.id = 2 := by
  refine ⟨?_, by decide, by decide, rfl, rfl⟩
  intro st hsort hwf
  rw [listItems, List.pairwise_filterMap]
  have hf : List.Pairwise (fun a b : String × Blob => keyLt a.1 b.1 = true)
      (st.store.filter fun p => hasItemTag p.1) :=
    hsort.filter _
  refine hf.imp_of_mem ?_
  intro p q hp hq hlt it hit it' hit'
  rw [storeWF] at hwf
  have hwf' := List.all_eq_true.mp hwf
  have key_of : ∀ x ∈ st.store, ∀ j, unmarshalItem x.2 = some j → x.1 = itemKey j.id := by
    intro x hx j hj
    have h2 := hwf' x hx
    cases hb : x.2 with
    | good i =>
      rw [hb] at hj h2
      simp only [unmarshalItem, Option.some.injEq] at hj h2
      rw [← hj]
      exact eq_of_beq h2
    | bad s =>
      rw [hb] at hj
      simp [unmarshalItem] at hj
  have hkp : p.1 = itemKey it.id := key_of p (List.mem_of_mem_filter hp) it hit
  have hkq : q.1 = itemKey it'.id := key_of q (List.mem_of_mem_filter hq) it' hit'
  rw [← hkp, ← hkq]
  exact hlt

theorem listItems_key_order_witness :
    List.Pairwise (fun a b : Item => keyLt (itemKey a.id) (itemKey b.id) = true)
      (listItems stKeyDemo) :=
  listItems_key_order.1 stKeyDemo (by decide) (by decide)

theorem runOps_spec (ops : List Op) (st : AppState) (h : SeqInv st.seq) :
    SeqInv (runOps ops st).2.seq ∧
      st.seq.next ≤ (runOps ops st).2.seq.next ∧
      (∀ i ∈ (runOps ops st).1,
        Int.ofNat st.seq.next ≤ i ∧ i < Int.ofNat (runOps ops st).2.seq.next) ∧
      List.Pairwise (fun a b : Int => a < b) (runOps ops st).1 := by
  induction ops generalizing st with
  | nil => exact ⟨h, le_refl _, by simp [runOps], by simp [runOps]⟩
  | cons op rest ih =>
    cases op with
    | update id body =>
      have hseq : ((updateItem id body st).2).seq = st.seq := updateItem_seq id body st
      have spec := ih (updateItem id body st).2 (by rw [hseq]; exact h)
      have hrun : runOps (Op.update id body :: rest) st =
          ((runOps rest (updateItem id body st).2).1,
            (runOps rest (updateItem id body st).2).2) := by
        simp [runOps, applyOp, Option.toList]
      rw [hrun]
      rw [← hseq]
      exact spec
    | del id =>
      have hseq : ((deleteItem id st).2).seq = st.seq := deleteItem_seq id st
      have spec := ih (deleteItem id st).2 (by rw [hseq]; exact h)
      have hrun : runOps (Op.del id :: rest) st =
          ((runOps rest (deleteItem id st).2).1,
            (runOps rest (deleteItem id st).2).2) := by
        simp [runOps, applyOp, Option.toList]
      rw [hrun]
      rw [← hseq]
      exact spec
    | create body now =>
      cases body with
      | malformed =>
        have spec := ih st h
        have hrun : runOps (Op.create Body.malformed now :: rest) st =
            ((runOps rest st).1, (runOps rest st).2) := by
          simp [runOps, applyOp, createItem, Option.toList]
        rw [hrun]
        exact spec
      | ok input =>
        by_cases hn : input.name = ""
        · have spec := ih st h
          have hrun : runOps (Op.create (Body.ok input) now :: rest) st =
              ((runOps rest st).1, (runOps rest st).2) := by
            simp [runOps, applyOp, createItem, hn, Option.toList]
          rw [hrun]
          exact spec
        · obtain ⟨e1, e2, hinv⟩ := seqNext_of_inv st.seq h
          have hseq1 : ((createItem (Body.ok input) now st).2).seq = (seqNext st.seq).2 := by
            simp [createItem, if_neg hn]
          have spec := ih ((createItem (Body.ok input) now st).2) (by rw [hseq1]; exact hinv)
          have hrun : runOps (Op.create (Body.ok input) now :: rest) st =
              (Int.ofNat (seqNext st.seq).1 ::
                  (runOps rest ((createItem (Body.ok input) now st).2)).1,
                (runOps rest ((createItem (Body.ok input) now st).2)).2) := by
            simp [runOps, applyOp, createItem, if_neg hn, Option.toList]
          have hnext : ((createItem (Body.ok input) now st).2).seq.next = st.seq.next + 1 := by
            rw [hseq1, e2]
          have hfin := spec.2.1
          rw [hrun]
          dsimp only
          refine ⟨spec.1, by omega, ?_, ?_⟩
          · intro i hi
            rcases List.mem_cons.mp hi with hhead | htail
            · subst hhead
              rw [e1]
              exact ⟨le_refl _, Int.ofNat_lt.mpr (by omega)⟩
            · have hb := spec.2.2.1 i htail
              exact ⟨le_trans (Int.ofNat_le.mpr (by omega)) hb.1, hb.2⟩
          · rw [List.pairwise_cons]
            refine ⟨?_, spec.2.2.2⟩
            intro b hbmem
            have hb := (spec.2.2.1 b hbmem).1
            rw [e1]
            calc Int.ofNat st.seq.next
                < Int.ofNat (st.seq.next + 1) := Int.ofNat_lt.mpr (by omega)
              _ = Int.ofNat ((createItem (Body.ok input) now st).2).seq.next := by
                  rw [hnext]
              _ ≤ b := hb

/-- C3: along any trace of calls in one process lifetime, the ids
returned by the successive successful creates are strictly increasing
and never repeat, even when deletes of earlier items happen between the
creates. -/
theorem create_ids_strictly_increasing (ops : List Op) (st : AppState)
    (h : SeqInv st.seq) :
    List.Pairwise (fun a b : Int => a < b) (runOps ops st).1 ∧
      (runOps ops st).1.Nodup :=
  ⟨(runOps_spec ops st h).2.2.2,
    ((runOps_spec ops st h).2.2.2).imp fun hab => ne_of_lt hab⟩

theorem create_ids_strictly_increasing_witness :
    List.Pairwise (fun a b : Int => a < b)
        (runOps [Op.create (Body.ok ⟨"A", ""⟩) 11, Op.del 0,
          Op.create (Body.ok ⟨"B", ""⟩) 22,
          Op.create (Body.ok ⟨"C", "x"⟩) 33] initState).1 ∧
      (runOps [Op.create (Body.ok ⟨"A", ""⟩) 11, Op.del 0,
        Op.create (Body.ok ⟨"B", ""⟩) 22,
        Op.create (Body.ok ⟨"C", "x"⟩) 33] initState).1.Nodup :=
  create_ids_strictly_increasing
    [Op.create (Body.ok ⟨"A", ""⟩) 11, Op.del 0,
      Op.create (Body.ok ⟨"B", ""⟩) 22, Op.create (Body.ok ⟨"C", "x"⟩) 33]
    initState (by decide)

end DemoApp
